import Mathlib

/-!
Verification development for a PM2.5 data-quality reporting utility
(`gen_summary.py` and `plot_graphs.py`).

The pipeline is: load spreadsheet files from a folder, tag each row with its
originating file, detect anomalous PM2.5 readings (value 0 or above 1000),
and summarize per sensor (= source file) the distinct calendar days on which
each anomaly occurred, keeping only sensors anomalous on more than one day.

Shallow embedding conventions:
- a dataframe is a `List` of typed rows;
- `pandas` NaN / missing numeric values are `Option.none`;
- `NaT` (unparseable timestamps) is `Option.none`;
- Python `float` readings are modelled by `Rat` (only order and equality
  comparisons with the constants 0 and 1000 are ever performed);
- `pandas` raising is modelled by `Except String`;
- strings produced by `str(date)` and `', '.join` are `List Char`;
- `groupby` outputs are keyed in sorted key order (pandas sorts group keys),
  and a pandas `Series` is an association list from key to value.
-/

/-! ## Lexicographic order on strings (code-point order, as pandas sorts) -/

/-- Boolean lexicographic less-or-equal on character lists, comparing
code points, mirroring how pandas sorts string group keys. -/
def lexLeChars : List Char → List Char → Bool
  | [], _ => true
  | _ :: _, [] => false
  | a :: as, b :: bs =>
    if a.toNat < b.toNat then true
    else if a.toNat = b.toNat then lexLeChars as bs
    else false

/-- Order on `String` induced by `lexLeChars` on the underlying characters. -/
def strLe (a b : String) : Prop := lexLeChars a.data b.data = true

instance : DecidableRel strLe := fun a b => by
  unfold strLe; exact inferInstance

theorem lexLeChars_total (as bs : List Char) :
    lexLeChars as bs = true ∨ lexLeChars bs as = true := by
  induction as generalizing bs with
  | nil => left; rfl
  | cons a as ih =>
    cases bs with
    | nil => right; rfl
    | cons b bs =>
      rcases Nat.lt_trichotomy a.toNat b.toNat with h | h | h
      · left; simp [lexLeChars, h]
      · rcases ih bs with hh | hh
        · left
          simp only [lexLeChars, if_neg (by omega : ¬ a.toNat < b.toNat), if_pos h]
          exact hh
        · right
          simp only [lexLeChars, if_neg (by omega : ¬ b.toNat < a.toNat), if_pos h.symm]
          exact hh
      · right; simp [lexLeChars, h]

theorem lexLeChars_trans (as bs cs : List Char)
    (h₁ : lexLeChars as bs = true) (h₂ : lexLeChars bs cs = true) :
    lexLeChars as cs = true := by
  induction as generalizing bs cs with
  | nil => rfl
  | cons a as ih =>
    cases bs with
    | nil => simp [lexLeChars] at h₁
    | cons b bs =>
      cases cs with
      | nil => simp [lexLeChars] at h₂
      | cons c cs =>
        rcases Nat.lt_trichotomy a.toNat b.toNat with hab | hab | hab
        · rcases Nat.lt_trichotomy b.toNat c.toNat with hbc | hbc | hbc
          · simp [lexLeChars, show a.toNat < c.toNat by omega]
          · simp [lexLeChars, show a.toNat < c.toNat by omega]
          · simp only [lexLeChars, if_neg (by omega : ¬ b.toNat < c.toNat),
              if_neg (by omega : ¬ b.toNat = c.toNat)] at h₂
            exact absurd h₂ (by decide)
        · rcases Nat.lt_trichotomy b.toNat c.toNat with hbc | hbc | hbc
          · simp [lexLeChars, show a.toNat < c.toNat by omega]
          · simp only [lexLeChars, if_neg (by omega : ¬ a.toNat < b.toNat),
              if_pos hab] at h₁
            simp only [lexLeChars, if_neg (by omega : ¬ b.toNat < c.toNat),
              if_pos hbc] at h₂
            simp only [lexLeChars, if_neg (by omega : ¬ a.toNat < c.toNat),
              if_pos (by omega : a.toNat = c.toNat)]
            exact ih bs cs h₁ h₂
          · simp only [lexLeChars, if_neg (by omega : ¬ b.toNat < c.toNat),
              if_neg (by omega : ¬ b.toNat = c.toNat)] at h₂
            exact absurd h₂ (by decide)
        · simp only [lexLeChars, if_neg (by omega : ¬ a.toNat < b.toNat),
            if_neg (by omega : ¬ a.toNat = b.toNat)] at h₁
          exact absurd h₁ (by decide)

theorem char_toNat_inj {a b : Char} (h : a.toNat = b.toNat) : a = b :=
  Char.ext_iff.mpr (UInt32.ext_iff.mpr h)

theorem lexLeChars_antisymm (as bs : List Char)
    (h₁ : lexLeChars as bs = true) (h₂ : lexLeChars bs as = true) : as = bs := by
  induction as generalizing bs with
  | nil =>
    cases bs with
    | nil => rfl
    | cons b bs => simp [lexLeChars] at h₂
  | cons a as ih =>
    cases bs with
    | nil => simp [lexLeChars] at h₁
    | cons b bs =>
      rcases Nat.lt_trichotomy a.toNat b.toNat with hab | hab | hab
      · simp only [lexLeChars, if_neg (by omega : ¬ b.toNat < a.toNat),
          if_neg (by omega : ¬ b.toNat = a.toNat)] at h₂
        exact absurd h₂ (by decide)
      · simp only [lexLeChars, if_neg (by omega : ¬ a.toNat < b.toNat),
          if_pos hab] at h₁
        simp only [lexLeChars, if_neg (by omega : ¬ b.toNat < a.toNat),
          if_pos hab.symm] at h₂
        rw [char_toNat_inj hab, ih bs h₁ h₂]
      · simp only [lexLeChars, if_neg (by omega : ¬ a.toNat < b.toNat),
          if_neg (by omega : ¬ a.toNat = b.toNat)] at h₁
        exact absurd h₁ (by decide)

instance : IsTotal String strLe :=
  ⟨fun a b => lexLeChars_total a.data b.data⟩

instance : IsTrans String strLe :=
  ⟨fun a b c => lexLeChars_trans a.data b.data c.data⟩

instance : IsAntisymm String strLe :=
  ⟨fun a b h₁ h₂ => by
    cases a; cases b
    exact congrArg String.mk (lexLeChars_antisymm _ _ h₁ h₂)⟩

/-- Sort a list of strings ascending, as pandas `groupby` and `merge` with
`how` set to outer do with string keys. -/
def sortStr (l : List String) : List String := l.insertionSort strLe

/-! ## Calendar dates and timestamps -/

/-- A calendar date, as produced by the `.dt.date` accessor on a parsed
timestamp column (Python `datetime.date`). -/
structure Date where
  year : Nat
  month : Nat
  day : Nat
deriving DecidableEq

/-- Calendar order on dates: lexicographic on (year, month, day), exactly how
Python compares `datetime.date` values. -/
def dateLe (a b : Date) : Prop :=
  a.year < b.year ∨
    (a.year = b.year ∧ (a.month < b.month ∨ (a.month = b.month ∧ a.day ≤ b.day)))

instance : DecidableRel dateLe := fun a b => by
  unfold dateLe; exact inferInstance

instance : IsTotal Date dateLe := ⟨fun a b => by unfold dateLe; omega⟩

instance : IsTrans Date dateLe := ⟨fun a b c => by unfold dateLe; omega⟩

instance : IsAntisymm Date dateLe :=
  ⟨fun a b h₁ h₂ => by
    obtain ⟨y₁, m₁, d₁⟩ := a
    obtain ⟨y₂, m₂, d₂⟩ := b
    have h₁' : y₁ < y₂ ∨ (y₁ = y₂ ∧ (m₁ < m₂ ∨ (m₁ = m₂ ∧ d₁ ≤ d₂))) := h₁
    have h₂' : y₂ < y₁ ∨ (y₂ = y₁ ∧ (m₂ < m₁ ∨ (m₂ = m₁ ∧ d₂ ≤ d₁))) := h₂
    simp only [Date.mk.injEq]
    omega⟩

/-- Sort a list of dates ascending, as Python `sorted` does on date values. -/
def sortD (l : List Date) : List Date := l.insertionSort dateLe

/-- A parsed timestamp: a calendar date plus an abstract time of day
(the time of day is truncated away by `.dt.date` and never otherwise used). -/
structure DateTime where
  date : Date
  timeOfDay : Nat
deriving DecidableEq

/-! ## ISO date strings -/

/-- Decimal digit character: `dig k` is the character for digit `k`. -/
def dig (n : Nat) : Char := Char.ofNat (48 + n)

/-- The ISO rendering `YYYY-MM-DD` of a date, as Python `str(date)` produces
for the in-range dates `datetime.date` can hold. -/
def dateToString (d : Date) : List Char :=
  [dig (d.year / 1000 % 10), dig (d.year / 100 % 10), dig (d.year / 10 % 10),
   dig (d.year % 10), '-', dig (d.month / 10 % 10), dig (d.month % 10), '-',
   dig (d.day / 10 % 10), dig (d.day % 10)]

/-- Join string pieces with the separator of comma plus space, as
`', '.join` does. -/
def joinCS : List (List Char) → List Char
  | [] => []
  | [p] => p
  | p :: q :: ps => p ++ ',' :: ' ' :: joinCS (q :: ps)

/-- Split a string at each non-overlapping occurrence of comma plus space,
scanning left to right, as Python `split` on that separator does. -/
def splitCS : List Char → List (List Char)
  | [] => [[]]
  | [c] => [[c]]
  | c₁ :: c₂ :: rest =>
    if c₁ = ',' ∧ c₂ = ' ' then [] :: splitCS rest
    else
      match splitCS (c₂ :: rest) with
      | [] => [[c₁]]
      | p :: ps => (c₁ :: p) :: ps

/-- Digit test on a character by code point. -/
def isDigitCh (c : Char) : Bool := decide (48 ≤ c.toNat) && decide (c.toNat ≤ 57)

/-- Numeric value of a digit character. -/
def digitVal (c : Char) : Nat := c.toNat - 48

/-- Modelled from the spec: parsing one piece of a date-list string back to a
calendar date, accepting exactly the fixed-width ISO form `YYYY-MM-DD`
(Python `datetime.date.fromisoformat`); this is the spec-side inverse used to
state the date-list invariant, not code of the repository. -/
def parseDate : List Char → Option Date
  | [y₁, y₂, y₃, y₄, s₁, m₁, m₂, s₂, d₁, d₂] =>
    if isDigitCh y₁ && isDigitCh y₂ && isDigitCh y₃ && isDigitCh y₄ &&
        (s₁ == '-') && isDigitCh m₁ && isDigitCh m₂ && (s₂ == '-') &&
        isDigitCh d₁ && isDigitCh d₂ then
      some ⟨digitVal y₁ * 1000 + digitVal y₂ * 100 + digitVal y₃ * 10 + digitVal y₄,
            digitVal m₁ * 10 + digitVal m₂,
            digitVal d₁ * 10 + digitVal d₂⟩
    else none
  | _ => none

theorem isDigitCh_dig : ∀ k, k < 10 → isDigitCh (dig k) = true := by decide

theorem digitVal_dig : ∀ k, k < 10 → digitVal (dig k) = k := by decide

theorem dig_ne_comma : ∀ k, k < 10 → dig k ≠ ',' := by decide

theorem comma_notMem_dateToString (d : Date) : ',' ∉ dateToString d := by
  have h10 : ∀ x : Nat, x % 10 < 10 := fun x => Nat.mod_lt _ (by omega)
  simp only [dateToString, List.mem_cons, List.not_mem_nil, or_false]
  intro h
  rcases h with h | h | h | h | h | h | h | h | h | h <;>
    first
      | exact dig_ne_comma _ (h10 _) h.symm
      | exact absurd h (by decide)

theorem parseDate_dateToString (d : Date) (hy : d.year < 10000)
    (hm : d.month < 100) (hd : d.day < 100) :
    parseDate (dateToString d) = some d := by
  have h10 : ∀ x : Nat, x % 10 < 10 := fun x => Nat.mod_lt _ (by omega)
  obtain ⟨y, m, dd⟩ := d
  have hy' : y < 10000 := hy
  have hm' : m < 100 := hm
  have hd' : dd < 100 := hd
  simp only [dateToString, parseDate]
  rw [if_pos]
  · simp only [Option.some.injEq, Date.mk.injEq]
    refine ⟨?_, ?_, ?_⟩ <;>
      simp only [digitVal_dig _ (h10 _)] <;> omega
  · simp only [Bool.and_eq_true, beq_iff_eq]
    refine ⟨⟨⟨⟨⟨⟨⟨⟨⟨?_, ?_⟩, ?_⟩, ?_⟩, ?_⟩, ?_⟩, ?_⟩, ?_⟩, ?_⟩, ?_⟩ <;>
      first
        | exact isDigitCh_dig _ (h10 _)
        | rfl
        | trivial

/-! ## Data model

A `Reading` is one row of the combined dataset: the three columns selected by
the Extractor, namely `Timestamp (UTC)` (parsed, `none` for `NaT`),
`PM2.5 (ug/m3)` (`none` for NaN/missing), and `File` (the source file name
assigned at load time). -/

structure Reading where
  timestamp : Option DateTime
  pm25 : Option Rat
  file : String
deriving DecidableEq

/-- One raw timestamp cell as found in a spreadsheet: either a string that
parses to a timestamp, or a malformed string. -/
inductive TsCell where
  | parseable (dt : DateTime)
  | malformed (raw : String)
deriving DecidableEq

/-- The effect of `pd.to_datetime` with `errors` set to coerce on one cell:
a malformed string becomes `NaT` (`none`) instead of raising. -/
def to_datetime_coerce : TsCell → Option DateTime
  | .parseable dt => some dt
  | .malformed _ => none

/-- One raw data row of a successfully read spreadsheet: its timestamp cell
and its PM2.5 cell (`none` for a missing value). -/
structure RawRow where
  ts : TsCell
  pm : Option Rat
deriving DecidableEq

/-- One directory entry: the file's name and the outcome of opening and
parsing it as tabular data with the required columns (`pd.read_excel` plus
access to the two expected columns); `Except.error` is the exception message
for a corrupt file, wrong format, or missing expected columns. -/
structure XFile where
  name : String
  parse : Except String (List RawRow)

/-- The condition `data['PM2.5 (ug/m3)'] > 1000` applied to one cell.
As in pandas, a NaN (missing) value compares false. -/
def condHigh : Option Rat → Bool
  | some x => decide (1000 < x)
  | none => false

/-- The condition `data['PM2.5 (ug/m3)'] == 0` applied to one cell.
As in pandas, a NaN (missing) value compares false. -/
def condZero : Option Rat → Bool
  | some x => decide (x = 0)
  | none => false

/-! ## gen_summary.py -/

/-- The `load_and_find_extreme_values` of `gen_summary.py`: read one file,
coerce the timestamp column, keep every row, select the two columns and tag
rows with the file's base name; on any parse failure, log an error line with
the file path and exception message and return an empty frame. The second
component is the list of lines printed (the log). -/
def load_and_find_extreme_values (folder_path : String) (f : XFile) :
    List Reading × List String :=
  match f.parse with
  | .ok rows =>
    (rows.map fun rr =>
      { timestamp := to_datetime_coerce rr.ts, pm25 := rr.pm, file := f.name }, [])
  | .error e =>
    ([], ["Error processing " ++ folder_path ++ "/" ++ f.name ++ ": " ++ e])

/-- The test `file.endswith('.xlsx') or file.endswith('.xls')` on a directory
entry name. -/
def is_spreadsheet (name : String) : Bool :=
  ".xlsx".data.isSuffixOf name.data || ".xls".data.isSuffixOf name.data

/-- Concatenation of the per-file frames by `pd.concat`: concatenating an
empty list of frames raises `ValueError` with this message; otherwise the
rows are concatenated in order. -/
def pd_concat (tables : List (List Reading)) : Except String (List Reading) :=
  if tables.isEmpty then .error "No objects to concatenate"
  else .ok tables.flatten

/-- The `process_folder` of `gen_summary.py`: enumerate the directory's
entries, keep those whose name ends in a spreadsheet extension, load each,
and concatenate all the per-file frames. -/
def process_folder (folder_path : String) (entries : List XFile) :
    Except String (List Reading) :=
  pd_concat ((entries.filter fun f => is_spreadsheet f.name).map
    fun f => (load_and_find_extreme_values folder_path f).1)

/-- The rows `filtered_data` of `calculate_days_with_dates` after the added
`Date` column: the rows satisfying the condition, each reduced to its `File`
tag and its `Date` value (`none` when the timestamp is `NaT`, since
`.dt.date` of `NaT` is null). -/
def withDateCol (data : List Reading) (cond : Option Rat → Bool) :
    List (String × Option Date) :=
  (data.filter fun r => cond r.pm25).map fun r =>
    (r.file, r.timestamp.map DateTime.date)

/-- The (File, Date) pairs that reach the `groupby(['File', 'Date'])`:
pandas drops rows whose group key contains a null, so rows with a `none`
date disappear here. -/
def datePairs (data : List Reading) (cond : Option Rat → Bool) :
    List (String × Date) :=
  (withDateCol data cond).filterMap fun p => p.2.map fun d => (p.1, d)

/-- The frame `daily_counts`: one row per distinct (File, Date) key with the
occurrence count from `.size()`. pandas emits the keys sorted; the key order
is irrelevant downstream (the per-file dates are re-sorted and the counts
are never used), so the first-occurrence order of `dedup` is used here. -/
def daily_counts (data : List Reading) (cond : Option Rat → Bool) :
    List ((String × Date) × Nat) :=
  (datePairs data cond).dedup.map fun k => (k, (datePairs data cond).count k)

/-- The `Date` column of the group of `daily_counts` rows for file `f` under
`daily_counts.groupby('File')['Date']`. -/
def file_dates (data : List Reading) (cond : Option Rat → Bool) (f : String) :
    List Date :=
  (daily_counts data cond).filterMap fun x =>
    if x.1.1 = f then some x.1.2 else none

/-- The group keys of `daily_counts.groupby('File')`, in pandas' sorted key
order. -/
def group_files (data : List Reading) (cond : Option Rat → Bool) :
    List String :=
  sortStr ((daily_counts data cond).map fun x => x.1.1).dedup

/-- The entry of the `grouped.nunique()` series for file `f`: the number of
distinct dates in its group. -/
def nunique_days (data : List Reading) (cond : Option Rat → Bool)
    (f : String) : Nat :=
  (file_dates data cond f).dedup.length

/-- The entry of the `specific_dates` series for file `f`:
`', '.join(map(str, sorted(x.unique())))` over its group's dates. -/
def specific_dates (data : List Reading) (cond : Option Rat → Bool)
    (f : String) : List Char :=
  joinCS ((sortD (file_dates data cond f).dedup).map dateToString)

/-- The `calculate_days_with_dates` of `gen_summary.py`: the pair of series
`(unique_day_counts[unique_day_counts > 1], specific_dates)`, each as an
association list in sorted key order. Note the source filters only the
counts series; `specific_dates` is returned for every file in the group. -/
def calculate_days_with_dates (data : List Reading)
    (cond : Option Rat → Bool) :
    List (String × Nat) × List (String × List Char) :=
  (((group_files data cond).map fun f => (f, nunique_days data cond f)).filter
      fun p => 1 < p.2,
   (group_files data cond).map fun f => (f, specific_dates data cond f))

/-- One row of the final summary table, with its five columns Sensor,
`Days with PM2.5 > 1000`, `Dates with PM2.5 > 1000`, `Days with PM2.5 = 0`,
`Dates with PM2.5 = 0`. -/
structure SummaryRow where
  sensor : String
  days_high : Nat
  dates_high : List Char
  days_zero : Nat
  dates_zero : List Char
deriving DecidableEq

/-- Construction of one side's frame by `pd.DataFrame` from a dict mixing the
raw arrays `values.index`, `values.values` with the series `dates`: pandas
takes the result index from the series and requires every raw array's length
to equal the index length, raising `ValueError` otherwise; on success row i
is (values.index[i], values.values[i], dates.values[i]). -/
def mkFrame (values : List (String × Nat)) (dates : List (String × List Char)) :
    Except String (List (String × Nat × List Char)) :=
  if values.length = dates.length then
    .ok ((values.zip dates).map fun vd => (vd.1.1, vd.1.2, vd.2.2))
  else .error "array length does not match index length"

/-- The `.merge(..., on='Sensor', how='outer')` of the two frames followed by
the `fillna` dict and `astype(int)`: an outer merge sorts the union of keys
lexicographically; a sensor missing from one side gets NaN cells which
`fillna` replaces by 0 and the empty string, and `astype(int)` renders the
count columns integral (`Nat` here by construction). -/
def merge_fillna (lhs rhs : List (String × Nat × List Char)) :
    List SummaryRow :=
  (sortStr ((lhs.map Prod.fst ++ rhs.map Prod.fst).dedup)).map fun s =>
    { sensor := s
      days_high := ((lhs.lookup s).map Prod.fst).getD 0
      dates_high := ((lhs.lookup s).map Prod.snd).getD []
      days_zero := ((rhs.lookup s).map Prod.fst).getD 0
      dates_zero := ((rhs.lookup s).map Prod.snd).getD [] }

/-- The `generate_summary_table` of `gen_summary.py`: build the high-side
frame from `calculate_days_with_dates` under the high condition, then the
zero-side frame under the zero condition (each construction can raise, in
this order), then merge, fill and coerce. -/
def generate_summary_table (data : List Reading) :
    Except String (List SummaryRow) :=
  match mkFrame (calculate_days_with_dates data condHigh).1
      (calculate_days_with_dates data condHigh).2 with
  | .error e => .error e
  | .ok lhs =>
    match mkFrame (calculate_days_with_dates data condZero).1
        (calculate_days_with_dates data condZero).2 with
    | .error e => .error e
    | .ok rhs => .ok (merge_fillna lhs rhs)

/-! ## plot_graphs.py -/

/-- The `load_and_find_extreme_values` of `plot_graphs.py`: same as the
summary variant but pre-filtered to the anomalous rows
`(pm == 0) | (pm > 1000)`. -/
def plot_load_extreme_values (folder_path : String) (f : XFile) :
    List Reading × List String :=
  match f.parse with
  | .ok rows =>
    ((rows.map fun rr =>
        ({ timestamp := to_datetime_coerce rr.ts, pm25 := rr.pm,
           file := f.name } : Reading)).filter
      fun r => condZero r.pm25 || condHigh r.pm25, [])
  | .error e =>
    ([], ["Error processing " ++ folder_path ++ "/" ++ f.name ++ ": " ++ e])

/-- The `process_folder` of `plot_graphs.py`. -/
def plot_process_folder (folder_path : String) (entries : List XFile) :
    Except String (List Reading) :=
  pd_concat ((entries.filter fun f => is_spreadsheet f.name).map
    fun f => (plot_load_extreme_values folder_path f).1)

/-! ## Claim-side notions -/

/-- The distinct calendar days of sensor `f` on which `cond` held with a
usable (non-null) timestamp: the set the spec's day counts are about. -/
def distinct_days (data : List Reading) (cond : Option Rat → Bool)
    (f : String) : List Date :=
  ((data.filter fun r => cond r.pm25 && (r.file == f)).filterMap
    fun r => r.timestamp.map DateTime.date).dedup

/-- The distinct-day count of sensor `f` under `cond`. -/
def day_count (data : List Reading) (cond : Option Rat → Bool)
    (f : String) : Nat :=
  (distinct_days data cond f).length

/-- Every parsed timestamp in the dataset carries a date whose components
are in the ranges Python `datetime.date` guarantees (year below 10000, month
and day rendered with two digits); real data always satisfies this. -/
def valid_data (data : List Reading) : Prop :=
  ∀ r ∈ data, (r.timestamp.all fun dtm =>
    decide (dtm.date.year < 10000) && decide (dtm.date.month < 100) &&
      decide (dtm.date.day < 100)) = true

instance valid_data.instDecidable (data : List Reading) :
    Decidable (valid_data data) := by
  unfold valid_data; exact List.decidableBAll _ _

/-! ## Generic list and order lemmas -/

theorem insertionSort_eq_of_perm {α : Type} {r : α → α → Prop}
    [DecidableRel r] [IsTotal α r] [IsTrans α r] [IsAntisymm α r]
    {l₁ l₂ : List α} (h : l₁.Perm l₂) :
    l₁.insertionSort r = l₂.insertionSort r :=
  List.eq_of_perm_of_sorted
    ((List.perm_insertionSort r l₁).trans (h.trans (List.perm_insertionSort r l₂).symm))
    (List.sorted_insertionSort r l₁) (List.sorted_insertionSort r l₂)

theorem perm_of_nodup_mem {α : Type} [DecidableEq α] {l₁ l₂ : List α}
    (h₁ : l₁.Nodup) (h₂ : l₂.Nodup) (hm : ∀ a, a ∈ l₁ ↔ a ∈ l₂) :
    l₁.Perm l₂ := by
  rw [List.perm_iff_count]
  intro a
  by_cases h : a ∈ l₁
  · rw [List.count_eq_one_of_mem h₁ h, List.count_eq_one_of_mem h₂ ((hm a).mp h)]
  · rw [List.count_eq_zero.mpr h, List.count_eq_zero.mpr (fun hh => h ((hm a).mpr hh))]

theorem dedup_length_eq_of_mem_iff {α : Type} [DecidableEq α]
    {l₁ l₂ : List α} (hm : ∀ a, a ∈ l₁ ↔ a ∈ l₂) :
    l₁.dedup.length = l₂.dedup.length :=
  (perm_of_nodup_mem l₁.nodup_dedup l₂.nodup_dedup
    (fun a => by simp only [List.mem_dedup]; exact hm a)).length_eq

theorem sortD_dedup_eq_of_mem_iff {l₁ l₂ : List Date}
    (hm : ∀ a, a ∈ l₁ ↔ a ∈ l₂) :
    sortD l₁.dedup = sortD l₂.dedup :=
  insertionSort_eq_of_perm (perm_of_nodup_mem l₁.nodup_dedup l₂.nodup_dedup
    (fun a => by simp only [List.mem_dedup]; exact hm a))

theorem lookup_map_graph {β : Type} (l : List String) (g : String → β)
    (s : String) :
    (l.map fun f => (f, g f)).lookup s = if s ∈ l then some (g s) else none := by
  induction l with
  | nil => rfl
  | cons a l ih =>
    by_cases h : s = a
    · subst h
      simp [List.lookup_cons]
    · have hb : (s == a) = false := beq_eq_false_iff_ne.mpr h
      simp only [List.map_cons, List.lookup_cons, hb, ih, List.mem_cons]
      by_cases hmem : s ∈ l <;> simp [hmem, h]

theorem lookup_eq_none_of_not_mem {β : Type} (l : List (String × β))
    (s : String) (h : s ∉ l.map Prod.fst) : l.lookup s = none := by
  induction l with
  | nil => rfl
  | cons p l ih =>
    obtain ⟨k, v⟩ := p
    simp only [List.map_cons, List.mem_cons, not_or] at h
    have hb : (s == k) = false := beq_eq_false_iff_ne.mpr h.1
    simp only [List.lookup_cons, hb, ih h.2]

theorem map_graph_fst {β : Type} (l : List String) (g : String → β) :
    (l.map fun f => (f, g f)).map Prod.fst = l := by
  induction l with
  | nil => rfl
  | cons a l ih => simp [ih]

/-! ## Round trip between joining and splitting date lists -/

theorem splitCS_no_comma : ∀ (p : List Char), ',' ∉ p → splitCS p = [p] := by
  intro p
  induction p with
  | nil => intro _; rfl
  | cons c p ih =>
    intro hp
    simp only [List.mem_cons, not_or] at hp
    cases p with
    | nil => rfl
    | cons c₂ rest =>
      simp only [splitCS]
      rw [if_neg fun hand => hp.1 hand.1.symm, ih hp.2]

theorem splitCS_piece_sep (p : List Char) (hp : ',' ∉ p) (s : List Char) :
    splitCS (p ++ ',' :: ' ' :: s) = p :: splitCS s := by
  induction p with
  | nil =>
    simp only [List.nil_append]
    simp [splitCS]
  | cons c p ih =>
    simp only [List.mem_cons, not_or] at hp
    have hih := ih hp.2
    cases hT : p ++ ',' :: ' ' :: s with
    | nil => simp at hT
    | cons t ts =>
      rw [List.cons_append, hT]
      simp only [splitCS]
      rw [if_neg fun hand => hp.1 hand.1.symm, ← hT, hih]

theorem splitCS_joinCS : ∀ (ps : List (List Char)), ps ≠ [] →
    (∀ p ∈ ps, ',' ∉ p) → splitCS (joinCS ps) = ps := by
  intro ps
  induction ps with
  | nil => intro h; exact absurd rfl h
  | cons p ps ih =>
    intro _ hcf
    cases ps with
    | nil => exact splitCS_no_comma p (hcf p (by simp))
    | cons q ps₂ =>
      simp only [joinCS]
      rw [splitCS_piece_sep p (hcf p (by simp)),
        ih (by simp) fun x hx => hcf x (List.mem_cons_of_mem _ hx)]

theorem map_parseDate_dateToString (L : List Date)
    (h : ∀ d ∈ L, d.year < 10000 ∧ d.month < 100 ∧ d.day < 100) :
    (L.map dateToString).map parseDate = L.map some := by
  induction L with
  | nil => rfl
  | cons d L ih =>
    have hd := h d (by simp)
    simp only [List.map_cons, List.cons.injEq]
    exact ⟨parseDate_dateToString d hd.1 hd.2.1 hd.2.2,
      ih fun x hx => h x (List.mem_cons_of_mem _ hx)⟩

/-! ## Membership characterizations of the grouping pipeline -/

theorem mem_datePairs {data : List Reading} {cond : Option Rat → Bool}
    {f : String} {d : Date} :
    (f, d) ∈ datePairs data cond ↔
      ∃ r ∈ data, cond r.pm25 = true ∧ r.file = f ∧
        r.timestamp.map DateTime.date = some d := by
  simp only [datePairs, withDateCol]
  constructor
  · intro h
    rcases List.mem_filterMap.mp h with ⟨p, hp, hpd⟩
    rcases List.mem_map.mp hp with ⟨r, hrf, rfl⟩
    rcases List.mem_filter.mp hrf with ⟨hr, hc⟩
    rcases Option.map_eq_some'.mp hpd with ⟨d', hd', heq⟩
    obtain ⟨hf, hdd⟩ : r.file = f ∧ d' = d := by
      simpa [Prod.ext_iff] using heq
    have hd2 : Option.map DateTime.date r.timestamp = some d' := hd'
    exact ⟨r, hr, hc, hf, by rw [hd2, hdd]⟩
  · rintro ⟨r, hr, hc, hf, hd⟩
    apply List.mem_filterMap.mpr
    refine ⟨(r.file, r.timestamp.map DateTime.date), ?_, ?_⟩
    · exact List.mem_map.mpr ⟨r, List.mem_filter.mpr ⟨hr, hc⟩, rfl⟩
    · rw [hd]
      simp [hf]

theorem mem_daily_counts {data : List Reading} {cond : Option Rat → Bool}
    {x : (String × Date) × Nat} :
    x ∈ daily_counts data cond ↔
      x.1 ∈ (datePairs data cond).dedup ∧
        x.2 = (datePairs data cond).count x.1 := by
  simp only [daily_counts, List.mem_map]
  constructor
  · rintro ⟨k, hk, rfl⟩
    exact ⟨hk, rfl⟩
  · rintro ⟨h1, h2⟩
    exact ⟨x.1, h1, by rw [← h2]⟩

theorem mem_file_dates {data : List Reading} {cond : Option Rat → Bool}
    {f : String} {d : Date} :
    d ∈ file_dates data cond f ↔ (f, d) ∈ datePairs data cond := by
  simp only [file_dates, List.mem_filterMap]
  constructor
  · rintro ⟨x, hx, hif⟩
    rcases mem_daily_counts.mp hx with ⟨hk, -⟩
    by_cases h : x.1.1 = f
    · rw [if_pos h] at hif
      have hd : x.1.2 = d := by simpa using hif
      have : x.1 = (f, d) := by
        rw [Prod.ext_iff]; exact ⟨h, hd⟩
      rw [← this]
      exact List.mem_dedup.mp hk
    · rw [if_neg h] at hif
      exact absurd hif (by simp)
  · intro hmem
    refine ⟨((f, d), (datePairs data cond).count (f, d)), ?_, by simp⟩
    exact mem_daily_counts.mpr ⟨List.mem_dedup.mpr hmem, rfl⟩

theorem mem_group_files {data : List Reading} {cond : Option Rat → Bool}
    {f : String} :
    f ∈ group_files data cond ↔ ∃ d, (f, d) ∈ datePairs data cond := by
  rw [group_files, sortStr, (List.perm_insertionSort strLe _).mem_iff,
    List.mem_dedup]
  simp only [List.mem_map]
  constructor
  · rintro ⟨x, hx, rfl⟩
    rcases mem_daily_counts.mp hx with ⟨hk, -⟩
    exact ⟨x.1.2, by simpa using List.mem_dedup.mp hk⟩
  · rintro ⟨d, hd⟩
    exact ⟨((f, d), (datePairs data cond).count (f, d)),
      mem_daily_counts.mpr ⟨List.mem_dedup.mpr hd, rfl⟩, rfl⟩

theorem mem_distinct_days {data : List Reading} {cond : Option Rat → Bool}
    {f : String} {d : Date} :
    d ∈ distinct_days data cond f ↔
      ∃ r ∈ data, cond r.pm25 = true ∧ r.file = f ∧
        r.timestamp.map DateTime.date = some d := by
  simp only [distinct_days, List.mem_dedup, List.mem_filterMap,
    List.mem_filter, Bool.and_eq_true, beq_iff_eq]
  constructor
  · rintro ⟨r, ⟨hr, hc, hf⟩, hd⟩
    exact ⟨r, hr, hc, hf, hd⟩
  · rintro ⟨r, hr, hc, hf, hd⟩
    exact ⟨r, ⟨hr, hc, hf⟩, hd⟩

theorem mem_file_dates_iff_distinct {data : List Reading}
    {cond : Option Rat → Bool} {f : String} {d : Date} :
    d ∈ file_dates data cond f ↔ d ∈ distinct_days data cond f := by
  rw [mem_file_dates, mem_datePairs, mem_distinct_days]

/-! ## Bridges between the pipeline and the claim-side day counts -/

theorem nunique_eq_day_count (data : List Reading) (cond : Option Rat → Bool)
    (f : String) : nunique_days data cond f = day_count data cond f := by
  rw [nunique_days, day_count, distinct_days]
  exact dedup_length_eq_of_mem_iff fun d =>
    mem_file_dates_iff_distinct.trans (by rw [distinct_days]; exact List.mem_dedup)

theorem sortD_file_dates_eq (data : List Reading) (cond : Option Rat → Bool)
    (f : String) :
    sortD (file_dates data cond f).dedup = sortD (distinct_days data cond f) := by
  rw [distinct_days]
  exact sortD_dedup_eq_of_mem_iff fun d =>
    mem_file_dates_iff_distinct.trans (by rw [distinct_days]; exact List.mem_dedup)

theorem specific_dates_eq (data : List Reading) (cond : Option Rat → Bool)
    (f : String) :
    specific_dates data cond f =
      joinCS ((sortD (distinct_days data cond f)).map dateToString) := by
  rw [specific_dates, sortD_file_dates_eq]

theorem mem_group_files_iff_day_count {data : List Reading}
    {cond : Option Rat → Bool} {f : String} :
    f ∈ group_files data cond ↔ 0 < day_count data cond f := by
  rw [mem_group_files, day_count, List.length_pos_iff_exists_mem]
  constructor
  · rintro ⟨d, hd⟩
    exact ⟨d, mem_distinct_days.mpr (mem_datePairs.mp hd)⟩
  · rintro ⟨d, hd⟩
    exact ⟨d, mem_datePairs.mpr (mem_distinct_days.mp hd)⟩

/-! ## Inversion of a successful summary-table construction -/

/-- The value either side's frame takes whenever its construction succeeds:
one row per group file carrying that file's distinct-day count and joined
date string. -/
def frame_of (data : List Reading) (cond : Option Rat → Bool) :
    List (String × Nat × List Char) :=
  (group_files data cond).map fun f =>
    (f, nunique_days data cond f, specific_dates data cond f)

theorem calculate_fst_eq (data : List Reading) (cond : Option Rat → Bool) :
    (calculate_days_with_dates data cond).1 =
      ((group_files data cond).filter fun f =>
        1 < nunique_days data cond f).map
          fun f => (f, nunique_days data cond f) := by
  rw [calculate_days_with_dates]
  rw [List.filter_map]
  rfl

theorem mkFrame_ok_inv {v : List (String × Nat)}
    {d : List (String × List Char)} {l : List (String × Nat × List Char)}
    (h : mkFrame v d = .ok l) :
    v.length = d.length ∧
      l = (v.zip d).map fun vd => (vd.1.1, vd.1.2, vd.2.2) := by
  rw [mkFrame] at h
  split at h
  next hlen => injection h with h2; exact ⟨hlen, h2.symm⟩
  next => simp at h

theorem mkFrame_calc_ok {data : List Reading} {cond : Option Rat → Bool}
    {lhs : List (String × Nat × List Char)}
    (h : mkFrame (calculate_days_with_dates data cond).1
      (calculate_days_with_dates data cond).2 = .ok lhs) :
    (∀ f ∈ group_files data cond, 1 < nunique_days data cond f) ∧
      lhs = frame_of data cond := by
  obtain ⟨hlen, hl⟩ := mkFrame_ok_inv h
  rw [calculate_fst_eq] at hlen hl
  have hlen2 : ((group_files data cond).filter fun f =>
      1 < nunique_days data cond f).length = (group_files data cond).length := by
    have hL : (calculate_days_with_dates data cond).2.length =
        (group_files data cond).length := by
      rw [calculate_days_with_dates]; exact List.length_map _ _
    rw [List.length_map] at hlen
    rw [hlen, hL]
  have hall : ∀ f ∈ group_files data cond,
      (fun f => decide (1 < nunique_days data cond f)) f = true :=
    List.filter_length_eq_length.mp hlen2
  have hfull : ((group_files data cond).filter fun f =>
      1 < nunique_days data cond f) = group_files data cond :=
    List.filter_eq_self.mpr hall
  constructor
  · exact fun f hf => of_decide_eq_true (hall f hf)
  · rw [hfull] at hl
    rw [hl, frame_of, calculate_days_with_dates]
    rw [List.zip_map']
    rw [List.map_map]
    rfl

theorem generate_ok_inv {data : List Reading} {t : List SummaryRow}
    (h : generate_summary_table data = .ok t) :
    (∀ f ∈ group_files data condHigh, 1 < nunique_days data condHigh f) ∧
      (∀ f ∈ group_files data condZero, 1 < nunique_days data condZero f) ∧
      t = merge_fillna (frame_of data condHigh) (frame_of data condZero) := by
  rw [generate_summary_table] at h
  split at h
  next e heq => simp at h
  next lhs heq1 =>
    split at h
    next e heq => simp at h
    next rhs heq2 =>
      injection h with h2
      obtain ⟨hallH, hlhs⟩ := mkFrame_calc_ok heq1
      obtain ⟨hallZ, hrhs⟩ := mkFrame_calc_ok heq2
      exact ⟨hallH, hallZ, by rw [← h2, hlhs, hrhs]⟩

/-! ## The merged table's rows -/

theorem merge_fillna_sensor_iff (lhs rhs : List (String × Nat × List Char))
    (s : String) :
    (∃ row ∈ merge_fillna lhs rhs, row.sensor = s) ↔
      s ∈ lhs.map Prod.fst ∨ s ∈ rhs.map Prod.fst := by
  simp only [merge_fillna]
  constructor
  · rintro ⟨row, hrow, hs⟩
    rcases List.mem_map.mp hrow with ⟨k, hk, hkrow⟩
    have hks : k = s := by rw [← hkrow] at hs; exact hs
    rw [sortStr, (List.perm_insertionSort strLe _).mem_iff, List.mem_dedup,
      List.mem_append] at hk
    rw [← hks]
    exact hk
  · intro hmem
    refine ⟨_, List.mem_map.mpr ⟨s, ?_, rfl⟩, rfl⟩
    rw [sortStr, (List.perm_insertionSort strLe _).mem_iff, List.mem_dedup,
      List.mem_append]
    exact hmem

theorem merge_fillna_row (lhs rhs : List (String × Nat × List Char))
    (row : SummaryRow) (h : row ∈ merge_fillna lhs rhs) :
    row.days_high = ((lhs.lookup row.sensor).map Prod.fst).getD 0 ∧
      row.dates_high = ((lhs.lookup row.sensor).map Prod.snd).getD [] ∧
      row.days_zero = ((rhs.lookup row.sensor).map Prod.fst).getD 0 ∧
      row.dates_zero = ((rhs.lookup row.sensor).map Prod.snd).getD [] := by
  simp only [merge_fillna, List.mem_map] at h
  rcases h with ⟨s, hs, rfl⟩
  exact ⟨rfl, rfl, rfl, rfl⟩

theorem frame_of_lookup (data : List Reading) (cond : Option Rat → Bool)
    (s : String) :
    (frame_of data cond).lookup s =
      if s ∈ group_files data cond then
        some (nunique_days data cond s, specific_dates data cond s)
      else none := by
  rw [frame_of]
  exact lookup_map_graph _ _ s

theorem frame_of_fst (data : List Reading) (cond : Option Rat → Bool) :
    (frame_of data cond).map Prod.fst = group_files data cond := by
  rw [frame_of]
  exact map_graph_fst _ _

/-! ## Congruence and permutation invariance of the summarizer -/

theorem calc_eq_of_datePairs_eq {data₁ data₂ : List Reading}
    {cond₁ cond₂ : Option Rat → Bool}
    (h : datePairs data₁ cond₁ = datePairs data₂ cond₂) :
    calculate_days_with_dates data₁ cond₁ =
      calculate_days_with_dates data₂ cond₂ := by
  have hd : daily_counts data₁ cond₁ = daily_counts data₂ cond₂ := by
    rw [daily_counts, daily_counts, h]
  have hf : ∀ f, file_dates data₁ cond₁ f = file_dates data₂ cond₂ f :=
    fun f => by rw [file_dates, file_dates, hd]
  have hg : group_files data₁ cond₁ = group_files data₂ cond₂ := by
    rw [group_files, group_files, hd]
  have hn : ∀ f, nunique_days data₁ cond₁ f = nunique_days data₂ cond₂ f :=
    fun f => by rw [nunique_days, nunique_days, hf]
  have hs : ∀ f, specific_dates data₁ cond₁ f = specific_dates data₂ cond₂ f :=
    fun f => by rw [specific_dates, specific_dates, hf]
  rw [calculate_days_with_dates, calculate_days_with_dates, hg]
  congr 1
  · congr 1
    exact List.map_congr_left fun f _ => by rw [hn]
  · exact List.map_congr_left fun f _ => by rw [hs]

theorem datePairs_null_timestamp (pre post : List Reading) (r : Reading)
    (cond : Option Rat → Bool) (h : r.timestamp = none) :
    datePairs (pre ++ r :: post) cond = datePairs (pre ++ post) cond := by
  simp only [datePairs, withDateCol, List.filter_append, List.map_append,
    List.filterMap_append, List.filter_cons]
  by_cases hc : cond r.pm25 <;> simp [hc, h]

theorem datePairs_cond_false (pre post : List Reading) (r : Reading)
    (cond : Option Rat → Bool) (h : cond r.pm25 = false) :
    datePairs (pre ++ r :: post) cond = datePairs (pre ++ post) cond := by
  simp only [datePairs, withDateCol, List.filter_append, List.map_append,
    List.filterMap_append, List.filter_cons]
  simp [h]

theorem calc_perm {data₁ data₂ : List Reading} (h : data₁.Perm data₂)
    (cond : Option Rat → Bool) :
    calculate_days_with_dates data₁ cond =
      calculate_days_with_dates data₂ cond := by
  have hP : (datePairs data₁ cond).Perm (datePairs data₂ cond) := by
    rw [datePairs, datePairs, withDateCol, withDateCol]
    exact ((h.filter _).map _).filterMap _
  have hcount : ∀ k : String × Date,
      (datePairs data₁ cond).count k = (datePairs data₂ cond).count k :=
    fun k => by
      simp only [List.count]
      exact hP.countP_eq _
  have hdc : (daily_counts data₁ cond).Perm (daily_counts data₂ cond) := by
    rw [daily_counts, daily_counts]
    rw [show ((datePairs data₁ cond).dedup.map fun k =>
        (k, (datePairs data₁ cond).count k)) =
          ((datePairs data₁ cond).dedup.map fun k =>
            (k, (datePairs data₂ cond).count k)) from
      List.map_congr_left fun k _ => by rw [hcount]]
    exact hP.dedup.map _
  have hgf : group_files data₁ cond = group_files data₂ cond := by
    rw [group_files, group_files, sortStr, sortStr]
    exact insertionSort_eq_of_perm ((hdc.map _).dedup)
  have hfd : ∀ f, (file_dates data₁ cond f).Perm (file_dates data₂ cond f) :=
    fun f => by rw [file_dates, file_dates]; exact hdc.filterMap _
  have hn : ∀ f, nunique_days data₁ cond f = nunique_days data₂ cond f :=
    fun f => by
      rw [nunique_days, nunique_days]
      exact ((hfd f).dedup).length_eq
  have hs : ∀ f, specific_dates data₁ cond f = specific_dates data₂ cond f :=
    fun f => by
      rw [specific_dates, specific_dates, sortD, sortD,
        insertionSort_eq_of_perm (hfd f).dedup]
  rw [calculate_days_with_dates, calculate_days_with_dates, hgf]
  congr 1
  · congr 1
    exact List.map_congr_left fun f _ => by rw [hn]
  · exact List.map_congr_left fun f _ => by rw [hs]

/-! ## Concrete fixtures used by witnesses and failing-input evaluations -/

def dtJan1 : DateTime := ⟨⟨2024, 1, 1⟩, 0⟩

def dtJan2 : DateTime := ⟨⟨2024, 1, 2⟩, 0⟩

def dtJan3 : DateTime := ⟨⟨2024, 1, 3⟩, 0⟩

/-- Scenario B data: one file, anomalous (zero) readings on a single calendar
day only, plus a normal reading on another day. -/
def scenarioB : List Reading :=
  [⟨some dtJan1, some 0, "S2.xlsx"⟩, ⟨some ⟨⟨2024, 1, 1⟩, 7⟩, some 0, "S2.xlsx"⟩,
   ⟨some dtJan2, some 500, "S2.xlsx"⟩]

/-- Scenario A data: one file with zero readings on two distinct days and a
normal reading on a third. -/
def scenarioA : List Reading :=
  [⟨some dtJan1, some 0, "s1.xlsx"⟩, ⟨some dtJan2, some 0, "s1.xlsx"⟩,
   ⟨some dtJan3, some 500, "s1.xlsx"⟩]

/-- The summary row scenario A produces. -/
def rowA : SummaryRow := ⟨"s1.xlsx", 0, [], 2, "2024-01-01, 2024-01-02".data⟩

/-- The summary table scenario A produces. -/
def tableA : List SummaryRow := [rowA]

/-- C1. The claim states that BOTH series returned by
`calculate_days_with_dates` are restricted to the retained set (files with
strictly more than one distinct day). The code filters only the counts
series; the dates series keeps every file with at least one distinct day.
Evaluated on one file with a single zero-valued day: the counts series is
empty (retained set is empty) while the dates series still names the file,
contradicting the claim. -/
theorem claim_C1 :
    (calculate_days_with_dates
      [⟨some dtJan1, some 0, "S2.xlsx"⟩] condZero).1 = [] ∧
    (calculate_days_with_dates
      [⟨some dtJan1, some 0, "S2.xlsx"⟩] condZero).2 =
        [("S2.xlsx", "2024-01-01".data)] ∧
    day_count [⟨some dtJan1, some 0, "S2.xlsx"⟩] condZero "S2.xlsx" = 1 :=
  ⟨rfl, rfl, rfl⟩

/-- C2. On scenario B (one file, zero anomalies on a single day only, no
high anomalies), the claim states `generate_summary_table` returns an empty
table. The code instead raises: the zero-side `pd.DataFrame` mixes
length-0 arrays (the filtered counts) with the length-1 dates series, and
pandas raises `ValueError` on the length mismatch. -/
theorem claim_C2 :
    generate_summary_table scenarioB =
      .error "array length does not match index length" := rfl

/-- C3. The claim states `process_folder` returns an empty table and does
not raise both when zero entries match a spreadsheet extension and when all
matching files extract to empty. The code raises in the first case:
`pd.concat` of an empty list of frames raises `ValueError`; the second case
does return an empty table, in both script variants. -/
theorem claim_C3 :
    process_folder "data" [⟨"notes.txt", .ok []⟩] =
      .error "No objects to concatenate" ∧
    plot_process_folder "data" [⟨"notes.txt", .ok []⟩] =
      .error "No objects to concatenate" ∧
    process_folder "data" [⟨"a.xlsx", .error "boom"⟩, ⟨"b.xls", .ok []⟩] =
      .ok [] ∧
    plot_process_folder "data" [⟨"a.xlsx", .error "boom"⟩, ⟨"b.xls", .ok []⟩] =
      .ok [] :=
  ⟨rfl, rfl, rfl, rfl⟩

/-- C9. Permuting the rows of the combined dataset (in particular the order
in which per-file frames were concatenated) leaves the summary table
unchanged — proved here as full equality of the result, which implies the
claimed equality as a set of rows. -/
theorem claim_C9 (data₁ data₂ : List Reading) (h : data₁.Perm data₂) :
    generate_summary_table data₁ = generate_summary_table data₂ := by
  rw [generate_summary_table, generate_summary_table,
    calc_perm h condHigh, calc_perm h condZero]

def permA : List Reading :=
  [⟨some dtJan1, some 0, "p.xlsx"⟩, ⟨some dtJan2, some 1200, "p.xlsx"⟩]

def permB : List Reading :=
  [⟨some dtJan2, some 1200, "p.xlsx"⟩, ⟨some dtJan1, some 0, "p.xlsx"⟩]

theorem claim_C9_witness :
    permA.Perm permB ∧
      generate_summary_table permA = generate_summary_table permB :=
  ⟨by decide, claim_C9 permA permB (by decide)⟩

/-- C10. A row with a missing (NaN) `pm25` value satisfies neither anomaly
condition, is never selected by the visualizer's extreme-value filter, and
contributes no day to any count or date list of the summarizer. -/
theorem claim_C10 (pre post : List Reading) (r : Reading) (fp : String)
    (f : XFile) (h : r.pm25 = none) :
    condHigh r.pm25 = false ∧ condZero r.pm25 = false ∧
    calculate_days_with_dates (pre ++ r :: post) condHigh =
      calculate_days_with_dates (pre ++ post) condHigh ∧
    calculate_days_with_dates (pre ++ r :: post) condZero =
      calculate_days_with_dates (pre ++ post) condZero ∧
    ((plot_load_extreme_values fp f).1.all fun q => q.pm25.isSome) = true := by
  have hH : condHigh r.pm25 = false := by rw [h]; rfl
  have hZ : condZero r.pm25 = false := by rw [h]; rfl
  refine ⟨hH, hZ,
    calc_eq_of_datePairs_eq (datePairs_cond_false pre post r condHigh hH),
    calc_eq_of_datePairs_eq (datePairs_cond_false pre post r condZero hZ), ?_⟩
  rw [List.all_eq_true]
  intro q hq
  cases hp : f.parse with
  | ok rows =>
    simp only [plot_load_extreme_values, hp] at hq
    have hcond := (List.mem_filter.mp hq).2
    cases hqp : q.pm25 with
    | some x => rfl
    | none =>
      rw [hqp] at hcond
      exact absurd hcond (by simp [condZero, condHigh])
  | error e => simp [plot_load_extreme_values, hp] at hq

def rC10 : Reading := ⟨some dtJan1, none, "x.xlsx"⟩

def fC10 : XFile := ⟨"x.xlsx", .ok [⟨.parseable dtJan1, none⟩, ⟨.parseable dtJan2, some 0⟩]⟩

theorem claim_C10_witness :
    rC10.pm25 = none ∧
    (condHigh rC10.pm25 = false ∧ condZero rC10.pm25 = false ∧
      calculate_days_with_dates ([] ++ rC10 :: scenarioA) condHigh =
        calculate_days_with_dates ([] ++ scenarioA) condHigh ∧
      calculate_days_with_dates ([] ++ rC10 :: scenarioA) condZero =
        calculate_days_with_dates ([] ++ scenarioA) condZero ∧
      ((plot_load_extreme_values "d" fC10).1.all fun q => q.pm25.isSome) = true) :=
  ⟨rfl, claim_C10 [] scenarioA rC10 "d" fC10 rfl⟩

/-- C6. A file whose open or tabular parse fails does not raise: the loader
logs one line naming the file path and the exception message and returns an
empty frame, and `process_folder` proceeds with the remaining files, the
failing file contributing zero rows. -/
theorem claim_C6 (fp e : String) (f : XFile) (pre post : List XFile)
    (herr : f.parse = .error e) (hm : is_spreadsheet f.name = true) :
    load_and_find_extreme_values fp f =
      ([], ["Error processing " ++ fp ++ "/" ++ f.name ++ ": " ++ e]) ∧
    process_folder fp (pre ++ f :: post) =
      .ok (((pre.filter fun g => is_spreadsheet g.name).map
          fun g => (load_and_find_extreme_values fp g).1).flatten ++
        ((post.filter fun g => is_spreadsheet g.name).map
          fun g => (load_and_find_extreme_values fp g).1).flatten) := by
  have hload : load_and_find_extreme_values fp f =
      ([], ["Error processing " ++ fp ++ "/" ++ f.name ++ ": " ++ e]) := by
    simp only [load_and_find_extreme_values, herr]
  refine ⟨hload, ?_⟩
  rw [process_folder]
  rw [List.filter_append, List.filter_cons, hm, if_pos rfl]
  rw [List.map_append, List.map_cons, hload]
  rw [pd_concat, if_neg (by simp)]
  simp [List.flatten_append]

def fC6bad : XFile := ⟨"bad.xlsx", .error "boom"⟩

def fC6good : XFile :=
  ⟨"good.xlsx", .ok [⟨.parseable dtJan1, some 3⟩, ⟨.parseable dtJan2, some 0⟩]⟩

theorem claim_C6_witness :
    fC6bad.parse = .error "boom" ∧ is_spreadsheet fC6bad.name = true ∧
    (load_and_find_extreme_values "d" fC6bad =
      ([], ["Error processing " ++ "d" ++ "/" ++ fC6bad.name ++ ": " ++ "boom"]) ∧
    process_folder "d" ([fC6good] ++ fC6bad :: []) =
      .ok ((([fC6good].filter fun g => is_spreadsheet g.name).map
          fun g => (load_and_find_extreme_values "d" g).1).flatten ++
        ((([] : List XFile).filter fun g => is_spreadsheet g.name).map
          fun g => (load_and_find_extreme_values "d" g).1).flatten)) :=
  ⟨rfl, rfl, claim_C6 "d" "boom" fC6bad [fC6good] [] rfl rfl⟩

/-- C7. A malformed timestamp in an otherwise valid file does not raise: the
loader keeps every raw row, one `Reading` per raw row in order, the
timestamp being the coerced value, and coercing a malformed cell gives the
null timestamp; and a null-timestamp row is silently dropped by the
grouping-by-date, contributing to no count or date list. -/
theorem claim_C7 (fp : String) (f : XFile) (rows : List RawRow) (s : String)
    (pre post : List Reading) (r : Reading) (cond : Option Rat → Bool)
    (hok : f.parse = .ok rows) (hnull : r.timestamp = none) :
    (load_and_find_extreme_values fp f).1 =
      (rows.map fun rr =>
        { timestamp := to_datetime_coerce rr.ts, pm25 := rr.pm,
          file := f.name }) ∧
    to_datetime_coerce (TsCell.malformed s) = none ∧
    calculate_days_with_dates (pre ++ r :: post) cond =
      calculate_days_with_dates (pre ++ post) cond := by
  refine ⟨?_, rfl,
    calc_eq_of_datePairs_eq (datePairs_null_timestamp pre post r cond hnull)⟩
  simp only [load_and_find_extreme_values, hok]

def fC7 : XFile :=
  ⟨"m.xlsx", .ok [⟨.malformed "not a time", some 0⟩, ⟨.parseable dtJan1, some 4⟩]⟩

def rC7 : Reading := ⟨none, some 0, "m.xlsx"⟩

theorem claim_C7_witness :
    fC7.parse = .ok [⟨.malformed "not a time", some 0⟩, ⟨.parseable dtJan1, some 4⟩] ∧
    rC7.timestamp = none ∧
    ((load_and_find_extreme_values "d" fC7).1 =
      (([⟨.malformed "not a time", some 0⟩,
        ⟨.parseable dtJan1, some 4⟩] : List RawRow).map fun rr =>
          { timestamp := to_datetime_coerce rr.ts, pm25 := rr.pm,
            file := fC7.name }) ∧
    to_datetime_coerce (TsCell.malformed "not a time") = none ∧
    calculate_days_with_dates ([] ++ rC7 :: scenarioA) condZero =
      calculate_days_with_dates ([] ++ scenarioA) condZero) :=
  ⟨rfl, rfl, claim_C7 "d" fC7 _ "not a time" [] scenarioA rC7 condZero rfl rfl⟩

/-- C4. Whenever `generate_summary_table` produces a table, a sensor appears
as one of its rows exactly when it has at least 2 distinct calendar days of
high readings or at least 2 distinct calendar days of zero readings. -/
theorem claim_C4 (data : List Reading) (f : String) (t : List SummaryRow)
    (h : generate_summary_table data = .ok t) :
    (∃ row ∈ t, row.sensor = f) ↔
      2 ≤ day_count data condHigh f ∨ 2 ≤ day_count data condZero f := by
  obtain ⟨hallH, hallZ, ht⟩ := generate_ok_inv h
  subst ht
  rw [merge_fillna_sensor_iff, frame_of_fst, frame_of_fst]
  constructor
  · rintro (hf | hf)
    · left
      have h2 := hallH f hf
      rw [nunique_eq_day_count] at h2
      omega
    · right
      have h2 := hallZ f hf
      rw [nunique_eq_day_count] at h2
      omega
  · rintro (hf | hf)
    · exact Or.inl (mem_group_files_iff_day_count.mpr (by omega))
    · exact Or.inr (mem_group_files_iff_day_count.mpr (by omega))

theorem claim_C4_witness :
    generate_summary_table scenarioA = .ok tableA ∧
    ((∃ row ∈ tableA, row.sensor = "s1.xlsx") ↔
      2 ≤ day_count scenarioA condHigh "s1.xlsx" ∨
        2 ≤ day_count scenarioA condZero "s1.xlsx") :=
  ⟨rfl, claim_C4 scenarioA "s1.xlsx" tableA rfl⟩

/-- C5. In a produced table, a sensor absent from one condition's retained
result has that condition's count cell equal to 0 and that condition's
date-list cell equal to the empty string; the count columns are `Nat`-valued
by construction (`astype(int)` in the source), hence always non-negative
integers. -/
theorem claim_C5 (data : List Reading) (t : List SummaryRow)
    (row : SummaryRow) (h : generate_summary_table data = .ok t)
    (hrow : row ∈ t) :
    ((calculate_days_with_dates data condZero).1.lookup row.sensor = none →
      row.days_zero = 0 ∧ row.dates_zero = []) ∧
    ((calculate_days_with_dates data condHigh).1.lookup row.sensor = none →
      row.days_high = 0 ∧ row.dates_high = []) := by
  obtain ⟨hallH, hallZ, ht⟩ := generate_ok_inv h
  subst ht
  obtain ⟨hdh, hdah, hdz, hdaz⟩ := merge_fillna_row _ _ _ hrow
  constructor
  · intro hlz
    have hnotmem : row.sensor ∉ group_files data condZero := by
      intro hmem
      rw [calculate_fst_eq,
        List.filter_eq_self.mpr (fun a ha => decide_eq_true (hallZ a ha)),
        lookup_map_graph, if_pos hmem] at hlz
      exact Option.noConfusion hlz
    rw [frame_of_lookup, if_neg hnotmem] at hdz hdaz
    exact ⟨hdz, hdaz⟩
  · intro hlh
    have hnotmem : row.sensor ∉ group_files data condHigh := by
      intro hmem
      rw [calculate_fst_eq,
        List.filter_eq_self.mpr (fun a ha => decide_eq_true (hallH a ha)),
        lookup_map_graph, if_pos hmem] at hlh
      exact Option.noConfusion hlh
    rw [frame_of_lookup, if_neg hnotmem] at hdh hdah
    exact ⟨hdh, hdah⟩

theorem claim_C5_witness :
    rowA ∈ tableA ∧
    (calculate_days_with_dates scenarioA condHigh).1.lookup rowA.sensor = none ∧
    (((calculate_days_with_dates scenarioA condZero).1.lookup rowA.sensor = none →
        rowA.days_zero = 0 ∧ rowA.dates_zero = []) ∧
      ((calculate_days_with_dates scenarioA condHigh).1.lookup rowA.sensor = none →
        rowA.days_high = 0 ∧ rowA.dates_high = [])) :=
  ⟨by decide, rfl, claim_C5 scenarioA tableA rowA rfl (by decide)⟩

theorem summary_side_roundtrip (data : List Reading)
    (cond : Option Rat → Bool) (s : String) (hv : valid_data data)
    (hmem : s ∈ group_files data cond) :
    (splitCS (specific_dates data cond s)).map parseDate =
        (sortD (distinct_days data cond s)).map some ∧
      List.Sorted dateLe (sortD (distinct_days data cond s)) ∧
      (sortD (distinct_days data cond s)).Nodup ∧
      nunique_days data cond s = (distinct_days data cond s).length := by
  have hperm : (sortD (distinct_days data cond s)).Perm
      (distinct_days data cond s) := List.perm_insertionSort dateLe _
  have hLpos : 0 < (distinct_days data cond s).length :=
    mem_group_files_iff_day_count.mp hmem
  have hvalidL : ∀ d ∈ sortD (distinct_days data cond s),
      d.year < 10000 ∧ d.month < 100 ∧ d.day < 100 := by
    intro d hd
    rcases mem_distinct_days.mp (hperm.mem_iff.mp hd) with ⟨r, hr, -, -, hts⟩
    rcases Option.map_eq_some'.mp hts with ⟨tm, htm, htmd⟩
    have hvr := hv r hr
    rw [htm] at hvr
    simp only [Option.all_some, Bool.and_eq_true, decide_eq_true_eq] at hvr
    rw [← htmd]
    exact ⟨hvr.1.1, hvr.1.2, hvr.2⟩
  have hcf : ∀ p ∈ (sortD (distinct_days data cond s)).map dateToString,
      ',' ∉ p := by
    intro p hp
    rcases List.mem_map.mp hp with ⟨d, -, rfl⟩
    exact comma_notMem_dateToString d
  have hne : (sortD (distinct_days data cond s)).map dateToString ≠ [] := by
    intro hnil
    have := congrArg List.length hnil
    rw [List.length_map, hperm.length_eq, List.length_nil] at this
    omega
  refine ⟨?_, ?_, ?_, ?_⟩
  · rw [specific_dates_eq, splitCS_joinCS _ hne hcf]
    exact map_parseDate_dateToString _ hvalidL
  · exact List.sorted_insertionSort dateLe _
  · refine hperm.nodup_iff.mpr ?_
    rw [distinct_days]
    exact List.nodup_dedup _
  · rw [nunique_eq_day_count]
    rfl

/-- C8. For a produced table and a sensor retained for a condition (at least
2 distinct days, so the date-list cell is populated), splitting that
condition's date-list string on the comma-space separator and parsing each
piece back yields exactly the sorted de-duplicated list of the calendar
dates contributing to that sensor's count for that condition, ascending
(sorted under the calendar order with no duplicates); the count equals the
number of those dates. The validity hypothesis records the year/month/day
ranges Python `datetime.date` guarantees for every real timestamp. -/
theorem claim_C8 (data : List Reading) (t : List SummaryRow)
    (row : SummaryRow) (h : generate_summary_table data = .ok t)
    (hrow : row ∈ t) (hv : valid_data data) :
    (2 ≤ row.days_high →
      ((splitCS row.dates_high).map parseDate =
          (sortD (distinct_days data condHigh row.sensor)).map some ∧
        List.Sorted dateLe (sortD (distinct_days data condHigh row.sensor)) ∧
        (sortD (distinct_days data condHigh row.sensor)).Nodup ∧
        row.days_high = (distinct_days data condHigh row.sensor).length)) ∧
    (2 ≤ row.days_zero →
      ((splitCS row.dates_zero).map parseDate =
          (sortD (distinct_days data condZero row.sensor)).map some ∧
        List.Sorted dateLe (sortD (distinct_days data condZero row.sensor)) ∧
        (sortD (distinct_days data condZero row.sensor)).Nodup ∧
        row.days_zero = (distinct_days data condZero row.sensor).length)) := by
  obtain ⟨hallH, hallZ, ht⟩ := generate_ok_inv h
  subst ht
  obtain ⟨hdh, hdah, hdz, hdaz⟩ := merge_fillna_row _ _ _ hrow
  constructor
  · intro h2
    by_cases hmem : row.sensor ∈ group_files data condHigh
    · rw [frame_of_lookup, if_pos hmem] at hdh hdah
      simp only [Option.map_some', Option.getD_some] at hdh hdah
      obtain ⟨hrt, hsor, hnd, hcnt⟩ :=
        summary_side_roundtrip data condHigh row.sensor hv hmem
      rw [hdah, hdh]
      exact ⟨hrt, hsor, hnd, hcnt⟩
    · rw [frame_of_lookup, if_neg hmem] at hdh
      have h0 : row.days_high = 0 := hdh
      rw [h0] at h2
      exact absurd h2 (by omega)
  · intro h2
    by_cases hmem : row.sensor ∈ group_files data condZero
    · rw [frame_of_lookup, if_pos hmem] at hdz hdaz
      simp only [Option.map_some', Option.getD_some] at hdz hdaz
      obtain ⟨hrt, hsor, hnd, hcnt⟩ :=
        summary_side_roundtrip data condZero row.sensor hv hmem
      rw [hdaz, hdz]
      exact ⟨hrt, hsor, hnd, hcnt⟩
    · rw [frame_of_lookup, if_neg hmem] at hdz
      have h0 : row.days_zero = 0 := hdz
      rw [h0] at h2
      exact absurd h2 (by omega)

theorem claim_C8_witness :
    generate_summary_table scenarioA = .ok tableA ∧ rowA ∈ tableA ∧
    valid_data scenarioA ∧ 2 ≤ rowA.days_zero ∧
    ((splitCS rowA.dates_zero).map parseDate =
        (sortD (distinct_days scenarioA condZero rowA.sensor)).map some ∧
      List.Sorted dateLe (sortD (distinct_days scenarioA condZero rowA.sensor)) ∧
      (sortD (distinct_days scenarioA condZero rowA.sensor)).Nodup ∧
      rowA.days_zero = (distinct_days scenarioA condZero rowA.sensor).length) :=
  ⟨rfl, by decide, by decide, by decide,
    (claim_C8 scenarioA tableA rowA rfl (by decide) (by decide)).2 (by decide)⟩
